import Mathlib

/-!
Verification of the ProductionDeck protocol emulation core.

Shallow embedding of the protocol handler state machines (V1, V2, Module-6),
the image transform pipeline, the button-mapping transform, and the device
capability model.  Bytes are modelled as `Nat` (with explicit reductions
modulo 256 / 65536 exactly where the source performs a narrowing cast);
byte slices are `List Nat`; the fixed-capacity `heapless::Vec` buffers are
`List Nat` together with the explicit capacity checks the `heapless` API
performs (`extend_from_slice` fails atomically when the new length would
exceed the capacity; `push` beyond the capacity is a silent no-op, so a
sequence of pushes builds exactly the capacity-length prefix of the pushed
elements).
-/

namespace ProdDeck

/-! ## Configuration constants (src/config.rs) -/

def OUTPUT_REPORT_IMAGE : Nat := 0x02
def IMAGE_COMMAND_V2 : Nat := 0x07
def V2_COMMAND_RESET : Nat := 0x02
def V2_COMMAND_BRIGHTNESS : Nat := 0x08
def STREAMDECK_MAGIC_1 : Nat := 0x55
def STREAMDECK_MAGIC_2 : Nat := 0xAA
def STREAMDECK_MAGIC_3 : Nat := 0xD1
def STREAMDECK_RESET_MAGIC : Nat := 0x63
def STREAMDECK_BRIGHTNESS_RESET_MAGIC : Nat := 0x3E
def FEATURE_REPORT_BRIGHTNESS_V1 : Nat := 0x05
def IMAGE_BUFFER_SIZE : Nat := 1024

/-- Modelled from the spec: the byte tagging a Module idle-time set command
inside feature report 0x0B (`IDLE_TIME_COMMAND` is referenced by
src/protocol/v1.rs but its definition is not among the sources; the source
comment there and the Module-6 handler document the value 0xA2). -/
def IDLE_TIME_COMMAND : Nat := 0xA2

/-! ## Command and result types -/

/-- Modelled from the spec: the decoded vendor "set" command variants
(`ModuleSetCommand` is referenced by the handlers but its defining module is
not among the sources; the spec lists the variants
`Reset, ShowLogo, UpdateBootLogo{slice}, SetBrightness{value},
SetIdleTime{seconds}, SetKeyColor{key_index,r,g,b},
ShowBackgroundByIndex{index}`). -/
inductive ModuleSetCommand where
  | Reset
  | ShowLogo
  | UpdateBootLogo (slice : Nat)
  | SetBrightness (value : Nat)
  | SetIdleTime (seconds : Int)
  | SetKeyColor (key_index : Nat) (r : Nat) (g : Nat) (b : Nat)
  | ShowBackgroundByIndex (index : Nat)
  deriving DecidableEq, Repr

/-- Modelled from the spec: result of `parse_output_report`
(`OutputReportResult` is referenced by src/protocol/v1.rs and
src/protocol/module_6.rs but its defining code is not among the sources; the
spec lists `{KeyImageComplete{key, image}, chunk-in-progress marker,
Unhandled}`, and states that for V1 "payload concatenation is returned as
the complete image"). -/
inductive OutputReportResult where
  | KeyImageComplete (key_id : Nat) (image : List Nat)
  | InProgress
  | Unhandled
  deriving DecidableEq, Repr

/-- `ImageProcessResult` from src/protocol/mod.rs.  A completed image is a
`heapless::Vec<u8, IMAGE_BUFFER_SIZE>`; the capacity interaction is modelled
at the construction sites. -/
inductive ImageProcessResult where
  | Complete (image : List Nat)
  | Incomplete
  | Error (msg : String)
  deriving DecidableEq, Repr

/-! ## V1 protocol handler (src/protocol/v1.rs)

The reassembly buffer is a `heapless::Vec<u8, IMAGE_PROCESSING_BUFFER_SIZE>`.
`IMAGE_PROCESSING_BUFFER_SIZE` is referenced by the handlers but its
definition is not among the sources, so (modelled from the spec: a fixed
per-build reassembly capacity) the capacity is an explicit parameter `cap`
of every state-machine step below. -/

structure V1State where
  image_buffer : List Nat
  receiving_image : Bool
  expected_key : Nat
  deriving DecidableEq, Repr

/-- `V1Handler::new` / `V1Handler::reset_image_state`. -/
def v1_init : V1State := ⟨[], false, 0⟩

/-- Header extraction of `V1Handler::parse_output_report` (v1.rs lines
51-63): packet number, key id and payload start offset, or `none` when the
report is unrecognized. -/
def v1_header (data : List Nat) : Option (Nat × Nat × Nat) :=
  if data.length < 8 then none
  else if data.getD 0 0 = 0x02 ∧ data.length ≥ 6 then
    some (data.getD 2 0, data.getD 5 0, 8)
  else if data.getD 0 0 = 0x01 ∧ data.length ≥ 5 then
    some (data.getD 1 0, data.getD 4 0, 7)
  else none

/-- `V1Handler::parse_output_report` (v1.rs lines 50-109), returning the
result together with the successor handler state. -/
def v1_parse_output_report (cap : Nat) (s : V1State) (data : List Nat) :
    OutputReportResult × V1State :=
  match v1_header data with
  | none => (OutputReportResult.Unhandled, s)
  | some (packet_num, key_id, data_start) =>
    if packet_num = 0x01 then
      -- reset, mark receiving, capture the key, then copy the payload
      if data.length > data_start then
        if data.length - data_start > cap then
          (OutputReportResult.Unhandled, v1_init)
        else
          (OutputReportResult.Unhandled, ⟨data.drop data_start, true, key_id⟩)
      else
        (OutputReportResult.Unhandled, ⟨[], true, key_id⟩)
    else if packet_num = 0x02 ∧ s.receiving_image ∧ key_id = s.expected_key then
      if data.length > data_start then
        if s.image_buffer.length + (data.length - data_start) > cap then
          (OutputReportResult.Unhandled, v1_init)
        else
          (OutputReportResult.KeyImageComplete s.expected_key
            (s.image_buffer ++ data.drop data_start), v1_init)
      else
        (OutputReportResult.KeyImageComplete s.expected_key s.image_buffer, v1_init)
    else
      (OutputReportResult.Unhandled, s)

/-- Handler state after feeding a packet list to a fresh V1 handler. -/
def v1_run (cap : Nat) (packets : List (List Nat)) : V1State :=
  packets.foldl (fun s d => (v1_parse_output_report cap s d).2) v1_init

/-! ## V2 protocol handler (src/protocol/v2.rs) -/

structure V2State where
  image_buffer : List Nat
  receiving_image : Bool
  expected_key : Nat
  expected_sequence : Nat
  deriving DecidableEq, Repr

/-- `V2Handler::new` / `V2Handler::reset_image_state`. -/
def v2_init : V2State := ⟨[], false, 0, 0⟩

/-- Header extraction of `V2Handler::process_image_packet` (v2.rs lines
54-81): key id, is_last flag, payload length, sequence (both `u16`
little-endian) and payload start offset. -/
def v2_header (data : List Nat) : Option (Nat × Bool × Nat × Nat × Nat) :=
  if data.length < 8 then none
  else if data.getD 0 0 = OUTPUT_REPORT_IMAGE ∧ data.getD 1 0 = IMAGE_COMMAND_V2 then
    some (data.getD 2 0, data.getD 3 0 ≠ 0,
      data.getD 4 0 + 256 * data.getD 5 0,
      data.getD 6 0 + 256 * data.getD 7 0, 8)
  else if data.getD 0 0 = IMAGE_COMMAND_V2 ∧ data.length ≥ 7 then
    some (data.getD 1 0, data.getD 2 0 ≠ 0,
      data.getD 3 0 + 256 * data.getD 4 0,
      data.getD 5 0 + 256 * data.getD 6 0, 7)
  else none

/-- `V2Handler::process_image_packet` (v2.rs lines 53-126).  The completed
image is copied into a fresh `heapless::Vec<u8, IMAGE_BUFFER_SIZE>` with
`let _ = extend_from_slice(..)`, which fails atomically (leaving the vector
empty) when the reassembled image exceeds `IMAGE_BUFFER_SIZE`. -/
def v2_process_image_packet (cap : Nat) (s : V2State) (data : List Nat) :
    ImageProcessResult × V2State :=
  match v2_header data with
  | none => (ImageProcessResult.Incomplete, s)
  | some (key_id, is_last, payload_len, sequence, data_start) =>
    -- first packet (sequence 0) starts image reception
    let s1 : V2State :=
      if sequence = 0 then ⟨[], true, key_id, 0⟩ else s
    -- validate sequence and key
    if ¬s1.receiving_image ∨ key_id ≠ s1.expected_key ∨ sequence ≠ s1.expected_sequence then
      (ImageProcessResult.Incomplete, v2_init)
    else
      let copy_len := min payload_len (data.length - data_start)
      if 0 < copy_len ∧ s1.image_buffer.length + copy_len > cap then
        (ImageProcessResult.Incomplete, v2_init)
      else
        let s2 : V2State :=
          { s1 with image_buffer := s1.image_buffer ++ (data.drop data_start).take copy_len }
        let s3 : V2State :=
          { s2 with expected_sequence := (s2.expected_sequence + 1) % 65536 }
        if is_last then
          (ImageProcessResult.Complete
            (if s3.image_buffer.length ≤ IMAGE_BUFFER_SIZE then s3.image_buffer else []),
            v2_init)
        else
          (ImageProcessResult.Incomplete, s3)

/-- Handler state after feeding a packet list to a fresh V2 handler. -/
def v2_run (cap : Nat) (packets : List (List Nat)) : V2State :=
  packets.foldl (fun s d => (v2_process_image_packet cap s d).2) v2_init

/-! ## Module-6 protocol handler (src/protocol/module_6.rs)

`Module6KeysHandler::parse_output_report` (lines 113-135) indexes the input
slice without any length check; in the embedding every slice access is
checked, and `none` marks the executions on which the Rust code panics
(out-of-bounds index / out-of-bounds range `&data[6..0x10]`, `&data[0x10..]`). -/

def module6_parse_output_report (data : List Nat) : Option OutputReportResult := do
  let report_id ← data.get? 0
  let command ← data.get? 1
  if report_id = 0x02 then
    if command = 0x01 then do
      let _chunk_index ← data.get? 2
      let _reserved ← data.get? 3
      let _show_image_flag ← data.get? 4
      let _key_index ← data.get? 5
      -- `&data[6..0x10]` and `&data[0x10..]` both require 0x10 ≤ data.len()
      if 0x10 ≤ data.length then
        pure OutputReportResult.Unhandled
      else
        none
    else
      pure OutputReportResult.Unhandled
  else
    pure OutputReportResult.Unhandled

/-- `i32::from_le_bytes` on four byte values. -/
def i32_from_le_bytes (b0 b1 b2 b3 : Nat) : Int :=
  let n := b0 + 256 * b1 + 65536 * b2 + 16777216 * b3
  if n < 2147483648 then (n : Int) else (n : Int) - 4294967296

/-- `Module6KeysHandler::parse_module_set_command` (module_6.rs lines
26-79); the payload here excludes the report id byte. -/
def module6_parse_module_set_command (report_id : Nat) (data : List Nat) :
    Option ModuleSetCommand :=
  if report_id = 0x05 then
    if data.length ≥ 5 ∧ data.getD 0 0 = 0x55 ∧ data.getD 1 0 = 0xAA ∧
        data.getD 2 0 = 0xD1 ∧ data.getD 3 0 = 0x01 then
      some (ModuleSetCommand.SetBrightness (data.getD 4 0))
    else none
  else if report_id = 0x0B then
    if data.length ≥ 1 then
      if data.getD 0 0 = 0x63 then
        if data.length ≥ 2 then
          if data.getD 1 0 = 0x00 then some ModuleSetCommand.ShowLogo
          else if data.getD 1 0 = 0x02 then
            some (ModuleSetCommand.UpdateBootLogo
              (if data.length ≥ 3 then data.getD 2 0 else 0))
          else none
        else none
      else if data.getD 0 0 = 0xA2 then
        if data.length ≥ 5 then
          some (ModuleSetCommand.SetIdleTime (i32_from_le_bytes
            (data.getD 1 0) (data.getD 2 0) (data.getD 3 0) (data.getD 4 0)))
        else none
      else none
    else none
  else none

/-! ## Image transform pipeline (src/protocol/mod.rs, `image` module) -/

/-- `image::rgb888_to_rgb565` (mod.rs lines 203-221) before the output
capacity is applied: two big-endian RGB565 bytes per complete 3-byte chunk,
`(r>>3 as u16) << 11 | (g>>2 as u16) << 5 | (b>>3 as u16)`.  The `as u8`
casts of the emitted bytes are the explicit reductions modulo 256. -/
def rgb565_bytes : List Nat → List Nat
  | r :: g :: b :: rest =>
    let r5 := r >>> 3
    let g6 := g >>> 2
    let b5 := b >>> 3
    let rgb565 := Nat.lor (Nat.lor (r5 <<< 11) (g6 <<< 5)) b5
    ((rgb565 >>> 8) % 256) :: (rgb565 % 256) :: rgb565_bytes rest
  | _ => []

/-- `image::rgb888_to_rgb565`: the pairs are pushed into a
`heapless::Vec<u8, 2048>` with `let _ = push(..)`, so the built vector is
the 2048-byte prefix of the pushed bytes. -/
def rgb888_to_rgb565 (rgb888 : List Nat) : List Nat :=
  (rgb565_bytes rgb888).take 2048

/-- `image::rotate_270` (mod.rs lines 224-247) before the output capacity is
applied: for `new_y` in `0..width` and `new_x` in `0..height`, the three
bytes at `old_idx = (new_x * width + (width-1-new_y)) * 3` whenever
`old_idx + 2 < data.len()`, nothing otherwise. -/
def rotate_270_bytes (image_data : List Nat) (width height : Nat) : List Nat :=
  (List.range width).flatMap fun new_y =>
    (List.range height).flatMap fun new_x =>
      let old_x := width - 1 - new_y
      let old_y := new_x
      let old_idx := (old_y * width + old_x) * 3
      if old_idx + 2 < image_data.length then
        [image_data.getD old_idx 0, image_data.getD (old_idx + 1) 0,
          image_data.getD (old_idx + 2) 0]
      else []

/-- `image::rotate_270`: the bytes are pushed into a
`heapless::Vec<u8, IMAGE_BUFFER_SIZE>` with `let _ = push(..)`, so the built
vector is the `IMAGE_BUFFER_SIZE`-byte prefix of the pushed bytes. -/
def rotate_270 (image_data : List Nat) (width height : Nat) : List Nat :=
  (rotate_270_bytes image_data width height).take IMAGE_BUFFER_SIZE

/-! ## Button mapping (src/protocol/v1.rs `map_buttons`, lines 111-141) -/

structure ButtonMapping where
  mapped_buttons : List Bool
  active_count : Nat
  deriving DecidableEq, Repr

/-- The physical-to-logical index transform of `V1Handler::map_buttons`. -/
def v1_mapped_index (cols : Nat) (ltr : Bool) (physical_idx : Nat) : Nat :=
  if ltr then physical_idx
  else
    let row := physical_idx / cols
    let col := physical_idx % cols
    let reversed_col := cols - 1 - col
    row * cols + reversed_col

/-- One loop iteration of `V1Handler::map_buttons`: write the pressed state
into its mapped slot of the 32-entry array when the mapped index is below
32 (the body of the `for` loop, v1.rs lines 121-135). -/
def v1_write (cols : Nat) (ltr : Bool) (acc : List Bool) (iw : Nat × Bool) :
    List Bool :=
  let mapped_idx := v1_mapped_index cols ltr iw.1
  if mapped_idx < 32 then acc.set mapped_idx iw.2 else acc

/-- `V1Handler::map_buttons`: iterate the first `cols*rows` physical states
in order (`iter().take(total_keys).enumerate()`), writing each into its
mapped slot of a 32-entry array when the mapped index is below 32. -/
def v1_map_buttons (physical_buttons : List Bool) (cols rows : Nat)
    (left_to_right : Bool) : ButtonMapping :=
  let total_keys := cols * rows
  let mapped :=
    ((physical_buttons.take total_keys).enum).foldl
      (v1_write cols left_to_right) (List.replicate 32 false)
  ⟨mapped, total_keys⟩

/-! ## V1 feature report decoding (src/protocol/v1.rs lines 256-290) -/

/-- `V1Handler::handle_feature_report`.  The data slice is the full feature
report, report id byte included (`[0x05, 0x55, 0xAA, 0xD1, 0x01, value, ...]`). -/
def v1_handle_feature_report (report_id : Nat) (data : List Nat) :
    Option ModuleSetCommand :=
  if report_id = FEATURE_REPORT_BRIGHTNESS_V1 then
    if data.length ≥ 6 ∧ data.getD 1 0 = STREAMDECK_MAGIC_1 ∧
        data.getD 2 0 = STREAMDECK_MAGIC_2 ∧ data.getD 3 0 = STREAMDECK_MAGIC_3 ∧
        data.getD 4 0 = 0x01 then
      if data.getD 5 0 = STREAMDECK_BRIGHTNESS_RESET_MAGIC then
        some ModuleSetCommand.Reset
      else
        some (ModuleSetCommand.SetBrightness (data.getD 5 0))
    else none
  else if report_id = 0x0B then
    if data.length ≥ 6 ∧ data.getD 1 0 = IDLE_TIME_COMMAND then
      some (ModuleSetCommand.SetIdleTime (i32_from_le_bytes
        (data.getD 2 0) (data.getD 3 0) (data.getD 4 0) (data.getD 5 0)))
    else if data.length ≥ 2 ∧ data.getD 1 0 = STREAMDECK_RESET_MAGIC then
      some ModuleSetCommand.Reset
    else none
  else none

/-! ## Device capability model (src/device/mod.rs) -/

inductive ProtocolVersion where
  | V1
  | V2
  | Module
  deriving DecidableEq, Repr

structure UsbConfig where
  vid : Nat
  pid : Nat
  product_name : String
  manufacturer : String
  protocol : ProtocolVersion
  deriving DecidableEq, Repr

inductive Device where
  | Mini
  | RevisedMini
  | Original
  | OriginalV2
  | Xl
  | Plus
  | Module6
  | Module15
  | Module32
  deriving DecidableEq, Repr

/-- `Device::from_pid` (device/mod.rs lines 159-172). -/
def Device.from_pid (pid : Nat) : Option Device :=
  if pid = 0x0063 then some Device.Mini
  else if pid = 0x0080 then some Device.RevisedMini
  else if pid = 0x0060 then some Device.Original
  else if pid = 0x006d then some Device.OriginalV2
  else if pid = 0x006c then some Device.Xl
  else if pid = 0x0084 then some Device.Plus
  else if pid = 0x00b8 then some Device.Module6
  else if pid = 0x00b9 then some Device.Module15
  else if pid = 0x00ba then some Device.Module32
  else none

/-- `Device::pid` (device/mod.rs lines 180-192). -/
def Device.pid : Device → Nat
  | Device.Mini => 0x0063
  | Device.RevisedMini => 0x0080
  | Device.Original => 0x0060
  | Device.OriginalV2 => 0x006d
  | Device.Xl => 0x006c
  | Device.Plus => 0x0084
  | Device.Module6 => 0x00b8
  | Device.Module15 => 0x00b9
  | Device.Module32 => 0x00ba

/-- `Device::usb_config` (device/mod.rs lines 292-358). -/
def Device.usb_config : Device → UsbConfig
  | Device.Mini =>
    ⟨0x0fd9, 0x0063, "Stream Deck Mini", "Elgato Systems", ProtocolVersion.V1⟩
  | Device.RevisedMini =>
    ⟨0x0fd9, 0x0080, "Stream Deck Mini", "Elgato Systems", ProtocolVersion.V1⟩
  | Device.Original =>
    ⟨0x0fd9, 0x0060, "Stream Deck", "Elgato Systems", ProtocolVersion.V1⟩
  | Device.OriginalV2 =>
    ⟨0x0fd9, 0x006d, "Stream Deck", "Elgato Systems", ProtocolVersion.V2⟩
  | Device.Xl =>
    ⟨0x0fd9, 0x006c, "Stream Deck XL", "Elgato Systems", ProtocolVersion.V2⟩
  | Device.Plus =>
    ⟨0x0fd9, 0x0080, "Stream Deck Plus", "Elgato Systems", ProtocolVersion.V2⟩
  | Device.Module6 =>
    ⟨0x0fd9, 0x00b8, "Stream Deck Module 6 Keys", "Elgato Systems", ProtocolVersion.Module⟩
  | Device.Module15 =>
    ⟨0x0fd9, 0x00b9, "Stream Deck Module 15 Keys", "Elgato Systems", ProtocolVersion.Module⟩
  | Device.Module32 =>
    ⟨0x0fd9, 0x00ba, "Stream Deck Module 32 Keys", "Elgato Systems", ProtocolVersion.Module⟩

/-- The V1 packet would overflow the reassembly capacity: the header parses,
the state machine reaches an `extend_from_slice` call, and the appended
payload would push the buffer past `cap` (v1.rs lines 72-79 and 85-92). -/
def v1_append_overflows (cap : Nat) (s : V1State) (data : List Nat) : Prop :=
  match v1_header data with
  | none => False
  | some (packet_num, key_id, data_start) =>
    (packet_num = 0x01 ∧ data.length > data_start ∧
      data.length - data_start > cap) ∨
    (packet_num ≠ 0x01 ∧ packet_num = 0x02 ∧ s.receiving_image = true ∧
      key_id = s.expected_key ∧ data.length > data_start ∧
      s.image_buffer.length + (data.length - data_start) > cap)

/-- The V2 packet would overflow the reassembly capacity: the header parses,
key/sequence validation passes (after the sequence-0 reset, if any), and the
nonempty payload copy would push the buffer past `cap` (v2.rs lines 101-112). -/
def v2_append_overflows (cap : Nat) (s : V2State) (data : List Nat) : Prop :=
  match v2_header data with
  | none => False
  | some (key_id, _is_last, payload_len, sequence, data_start) =>
    let s1 : V2State := if sequence = 0 then ⟨[], true, key_id, 0⟩ else s
    s1.receiving_image = true ∧ key_id = s1.expected_key ∧
    sequence = s1.expected_sequence ∧
    0 < min payload_len (data.length - data_start) ∧
    s1.image_buffer.length + min payload_len (data.length - data_start) > cap

/-- The RGB565 conversion as the spec words it: per pixel the 16-bit value
`(r>>3)<<11 | (g>>2)<<5 | (b>>3)` emitted high byte first. -/
def rgb565_spec_bytes : List Nat → List Nat
  | r :: g :: b :: rest =>
    let v := Nat.lor (Nat.lor ((r >>> 3) <<< 11) ((g >>> 2) <<< 5)) (b >>> 3)
    (v / 256) :: (v % 256) :: rgb565_spec_bytes rest
  | _ => []

/-- The 3-byte pixel of a row-major RGB888 buffer at pixel index `j`. -/
def pix (d : List Nat) (j : Nat) : List Nat :=
  [d.getD (j * 3) 0, d.getD (j * 3 + 1) 0, d.getD (j * 3 + 2) 0]

/-! ## Packet header lemmas -/

theorem v2_header_start (key plo phi : Nat) (payload : List Nat) :
    v2_header ([2, 7, key, 0, plo, phi, 0, 0] ++ payload) =
      some (key, false, plo + 256 * phi, 0, 8) := by
  simp [v2_header, List.getD, OUTPUT_REPORT_IMAGE, IMAGE_COMMAND_V2]

theorem v2_header_seq2 (key lastb llo lhi : Nat) (payload : List Nat) :
    v2_header ([2, 7, key, lastb, llo, lhi, 2, 0] ++ payload) =
      some (key, decide (lastb ≠ 0), llo + 256 * lhi, 2, 8) := by
  simp [v2_header, List.getD, OUTPUT_REPORT_IMAGE, IMAGE_COMMAND_V2]

theorem v1_header_pkt (pn key : Nat) (payload : List Nat) :
    v1_header ([2, 1, pn, 0, 0, key, 0, 0] ++ payload) = some (pn, key, 8) := by
  simp [v1_header, List.getD]

/-- A V2 start-of-upload packet (sequence 0, `is_last` clear) whose payload
fits the reassembly capacity is accepted from any handler state: the state
is reset and a new upload begins (buffer = accepted payload, receiving,
expected sequence 1). -/
theorem v2_accepts_start (cap : Nat) (s : V2State) (key plo phi : Nat)
    (payload : List Nat)
    (hfit : min (plo + 256 * phi) payload.length ≤ cap) :
    v2_process_image_packet cap s ([2, 7, key, 0, plo, phi, 0, 0] ++ payload) =
      (ImageProcessResult.Incomplete,
        ⟨payload.take (min (plo + 256 * phi) payload.length), true, key, 1⟩) := by
  rw [v2_process_image_packet, v2_header_start]
  simp
  intro _ _ h3 h4
  exact absurd hfit (not_le.mpr (lt_min h3 h4))

/-- **C1.** V2 sequence enforcement: from any state, a sequence-0 packet for
key `key` with a payload that fits the reassembly capacity is accepted and
puts the handler into a receiving state expecting sequence 1; a following
packet for the same key with sequence 2 (skipping 1) yields no `Complete`
result and resets the state fully (buffer cleared, receiving false, expected
sequence 0); a subsequent sequence-0 packet for any key (processed from the
reset state, an instance of the first conjunct at `s = v2_init`) is accepted
and starts a new upload normally. -/
theorem C1_v2_sequence_enforcement (cap : Nat) (s : V2State)
    (key plo phi lastb llo lhi : Nat) (payload payload2 : List Nat)
    (hfit : min (plo + 256 * phi) payload.length ≤ cap) :
    v2_process_image_packet cap s ([2, 7, key, 0, plo, phi, 0, 0] ++ payload) =
      (ImageProcessResult.Incomplete,
        ⟨payload.take (min (plo + 256 * phi) payload.length), true, key, 1⟩) ∧
    v2_process_image_packet cap
        ⟨payload.take (min (plo + 256 * phi) payload.length), true, key, 1⟩
        ([2, 7, key, lastb, llo, lhi, 2, 0] ++ payload2) =
      (ImageProcessResult.Incomplete, v2_init) := by
  refine ⟨v2_accepts_start cap s key plo phi payload hfit, ?_⟩
  rw [v2_process_image_packet, v2_header_seq2]
  simp

theorem C1_v2_sequence_enforcement_witness :
    min (2 + 256 * 0) ([9, 9] : List Nat).length ≤ 4 ∧
    (v2_process_image_packet 4 v2_init ([2, 7, 5, 0, 2, 0, 0, 0] ++ [9, 9]) =
      (ImageProcessResult.Incomplete, ⟨[9, 9], true, 5, 1⟩) ∧
    v2_process_image_packet 4 ⟨[9, 9], true, 5, 1⟩
        ([2, 7, 5, 1, 0, 0, 2, 0] ++ []) =
      (ImageProcessResult.Incomplete, v2_init)) :=
  ⟨by decide,
    C1_v2_sequence_enforcement 4 v2_init 5 2 0 1 0 0 [9, 9] [] (by decide)⟩

/-- **C2.** V1 round trip from the freshly created (or reset) state: packet
`[0x02,0x01,0x01,0x00,0x00,5,0x00,0x00] ++ a` yields no completion and
leaves the handler receiving key 5 with buffer `a`; the follow-up packet
`[0x02,0x01,0x02,0x00,0x00,5,0x00,0x00] ++ b` then yields
`KeyImageComplete` with key 5 and image `a ++ b`, exactly once, with the
handler back in the idle reset state (the payloads fit the reassembly
capacity as they arrive: `a` into the empty buffer, `b` after `a`). -/
theorem C2_v1_round_trip (cap : Nat) (a b : List Nat)
    (ha : a.length ≤ cap) (hab : a.length + b.length ≤ cap) :
    v1_parse_output_report cap v1_init ([2, 1, 1, 0, 0, 5, 0, 0] ++ a) =
      (OutputReportResult.Unhandled, ⟨a, true, 5⟩) ∧
    v1_parse_output_report cap ⟨a, true, 5⟩ ([2, 1, 2, 0, 0, 5, 0, 0] ++ b) =
      (OutputReportResult.KeyImageComplete 5 (a ++ b), v1_init) := by
  constructor
  · rw [v1_parse_output_report, v1_header_pkt]
    simp
    rcases a with _ | ⟨x, a⟩
    · simp
    · simp
      intro h
      simp at ha
      exact absurd h (by omega)
  · rw [v1_parse_output_report, v1_header_pkt]
    simp
    rcases b with _ | ⟨x, b⟩
    · simp
    · simp
      simp at hab
      omega

/-! ## Overflow safety (C3) -/

theorem v1_step_buffer_le (cap : Nat) (s : V1State) (data : List Nat)
    (h : s.image_buffer.length ≤ cap) :
    ((v1_parse_output_report cap s data).2).image_buffer.length ≤ cap := by
  rw [v1_parse_output_report]
  rcases hh : v1_header data with _ | ⟨pn, key, ds⟩
  · simpa using h
  · simp only
    split_ifs <;> simp [v1_init] <;> omega

theorem v2_step_buffer_le (cap : Nat) (s : V2State) (data : List Nat)
    (h : s.image_buffer.length ≤ cap) :
    ((v2_process_image_packet cap s data).2).image_buffer.length ≤ cap := by
  rw [v2_process_image_packet]
  rcases hh : v2_header data with _ | ⟨key, last, plen, seq, ds⟩
  · simpa using h
  · simp only
    split_ifs with h1 h2 h3 h4 <;> simp_all [v2_init] <;> omega

theorem v1_overflow_resets (cap : Nat) (s : V1State) (data : List Nat)
    (h : v1_append_overflows cap s data) :
    v1_parse_output_report cap s data = (OutputReportResult.Unhandled, v1_init) := by
  rw [v1_parse_output_report]
  rw [v1_append_overflows] at h
  rcases hh : v1_header data with _ | ⟨pn, key, ds⟩
  · rw [hh] at h; exact h.elim
  · rw [hh] at h
    simp only at h ⊢
    rcases h with ⟨h1, h2, h3⟩ | ⟨h0, h1, h2, h3, h4, h5⟩
    · simp [h1, h2, h3]
    · simp [h0, h1, h2, h3, h4, h5]

theorem v2_overflow_resets (cap : Nat) (s : V2State) (data : List Nat)
    (h : v2_append_overflows cap s data) :
    v2_process_image_packet cap s data = (ImageProcessResult.Incomplete, v2_init) := by
  rw [v2_process_image_packet]
  rw [v2_append_overflows] at h
  rcases hh : v2_header data with _ | ⟨key, last, plen, seq, ds⟩
  · rw [hh] at h; exact h.elim
  · rw [hh] at h
    by_cases hs : seq = 0
    · subst hs
      simp only [reduceIte] at h ⊢
      obtain ⟨h1, h2, h3, h4, h5⟩ := h
      rw [if_neg (by simp), if_pos ⟨h4, h5⟩]
    · simp only [hs, reduceIte, if_false] at h ⊢
      obtain ⟨h1, h2, h3, h4, h5⟩ := h
      rw [if_neg (by push_neg; exact ⟨h1, h2, h3⟩), if_pos ⟨h4, h5⟩]

theorem v1_run_buffer_le (cap : Nat) (l : List (List Nat)) :
    ∀ (s : V1State), s.image_buffer.length ≤ cap →
      (l.foldl (fun s d => (v1_parse_output_report cap s d).2) s).image_buffer.length ≤ cap := by
  induction l with
  | nil => exact fun s h => h
  | cons d l ih => exact fun s h => ih _ (v1_step_buffer_le cap s d h)

theorem v2_run_buffer_le (cap : Nat) (l : List (List Nat)) :
    ∀ (s : V2State), s.image_buffer.length ≤ cap →
      (l.foldl (fun s d => (v2_process_image_packet cap s d).2) s).image_buffer.length ≤ cap := by
  induction l with
  | nil => exact fun s h => h
  | cons d l ih => exact fun s h => ih _ (v2_step_buffer_le cap s d h)

/-- **C3.** Overflow safety.  First conjunct: over every packet sequence fed
to a fresh V1 or V2 handler, the stored reassembly buffer length never
exceeds the capacity (no write past the buffer bound ever occurs).  Second
and third conjuncts: whenever appending a packet's payload would exceed the
capacity, the handler resets its state to the idle initial state (buffer
emptied, receiving false) and returns a non-complete result (`Unhandled`
for V1, `Incomplete` for V2). -/
theorem C3_overflow_safety :
    (∀ (cap : Nat) (packets : List (List Nat)),
        (v1_run cap packets).image_buffer.length ≤ cap ∧
        (v2_run cap packets).image_buffer.length ≤ cap) ∧
    (∀ (cap : Nat) (s : V1State) (data : List Nat),
        v1_append_overflows cap s data →
        v1_parse_output_report cap s data = (OutputReportResult.Unhandled, v1_init)) ∧
    (∀ (cap : Nat) (s : V2State) (data : List Nat),
        v2_append_overflows cap s data →
        v2_process_image_packet cap s data = (ImageProcessResult.Incomplete, v2_init)) :=
  ⟨fun cap packets =>
    ⟨v1_run_buffer_le cap packets v1_init (by simp [v1_init]),
     v2_run_buffer_le cap packets v2_init (by simp [v2_init])⟩,
   v1_overflow_resets, v2_overflow_resets⟩

theorem C3_overflow_safety_witness :
    v1_append_overflows 2 v1_init [2, 1, 1, 0, 0, 5, 0, 0, 9, 9, 9] ∧
    v1_parse_output_report 2 v1_init [2, 1, 1, 0, 0, 5, 0, 0, 9, 9, 9] =
      (OutputReportResult.Unhandled, v1_init) ∧
    v2_append_overflows 2 v2_init [2, 7, 5, 0, 3, 0, 0, 0, 9, 9, 9] ∧
    v2_process_image_packet 2 v2_init [2, 7, 5, 0, 3, 0, 0, 0, 9, 9, 9] =
      (ImageProcessResult.Incomplete, v2_init) :=
  ⟨by simp [v1_append_overflows, v1_header],
   C3_overflow_safety.2.1 2 v1_init _ (by simp [v1_append_overflows, v1_header]),
   by simp [v2_append_overflows, v2_header, OUTPUT_REPORT_IMAGE, IMAGE_COMMAND_V2],
   C3_overflow_safety.2.2 2 v2_init _
     (by simp [v2_append_overflows, v2_header, OUTPUT_REPORT_IMAGE, IMAGE_COMMAND_V2])⟩

theorem C2_v1_round_trip_witness :
    ([10, 11] : List Nat).length ≤ 100 ∧
    ([10, 11] : List Nat).length + ([20, 21] : List Nat).length ≤ 100 ∧
    (v1_parse_output_report 100 v1_init ([2, 1, 1, 0, 0, 5, 0, 0] ++ [10, 11]) =
      (OutputReportResult.Unhandled, ⟨[10, 11], true, 5⟩) ∧
    v1_parse_output_report 100 ⟨[10, 11], true, 5⟩
        ([2, 1, 2, 0, 0, 5, 0, 0] ++ [20, 21]) =
      (OutputReportResult.KeyImageComplete 5 ([10, 11] ++ [20, 21]), v1_init)) :=
  ⟨by decide, by decide,
    C2_v1_round_trip 100 [10, 11] [20, 21] (by decide) (by decide)⟩

/-- **C4.** The claim asserts that every protocol-core operation is total
over all input byte slices, in particular that the Module-6 output-report
parser is total over all input lengths.  The code contradicts this (and the
design rule that nothing in the core may halt the firmware):
`Module6KeysHandler::parse_output_report` reads `data[0]` and `data[1]`
without any length check and slices `&data[6..0x10]`, `&data[0x10..]`, so
it panics on every report shorter than 2 bytes (and on every report-0x02
command-0x01 packet shorter than 16 bytes); the checked embedding returns
`none` exactly on the panicking executions.  A 16-byte packet, by contrast,
is handled and returns a value. -/
theorem C4_module6_parse_panics :
    module6_parse_output_report [] = none ∧
    module6_parse_output_report [0x02] = none ∧
    module6_parse_output_report [0x02, 0x01, 0, 0, 0, 0] = none ∧
    module6_parse_output_report
        [0x02, 0x01, 0, 0, 0, 0, 0, 0, 0, 0, 0, 0, 0, 0, 0, 0] =
      some OutputReportResult.Unhandled := by
  decide

/-- **C7.** V1 feature command decode: feature report id 0x05 carrying the
magic bytes `0x55, 0xAA, 0xD1, 0x01` followed by a value byte (the report
buffer being `[0x05, 0x55, 0xAA, 0xD1, 0x01, value, ...]`) decodes to
`SetBrightness{value}`, or to `Reset` when the value equals the reserved
reset-magic byte 0x3E; in particular value 0x64 gives `SetBrightness{100}`. -/
theorem C7_v1_feature_brightness_decode :
    (∀ (v : Nat) (rest : List Nat),
        v1_handle_feature_report 0x05 ([0x05, 0x55, 0xAA, 0xD1, 0x01, v] ++ rest) =
          some (if v = STREAMDECK_BRIGHTNESS_RESET_MAGIC then ModuleSetCommand.Reset
            else ModuleSetCommand.SetBrightness v)) ∧
    v1_handle_feature_report 0x05 [0x05, 0x55, 0xAA, 0xD1, 0x01, 0x64] =
      some (ModuleSetCommand.SetBrightness 100) := by
  constructor
  · intro v rest
    by_cases hv : v = STREAMDECK_BRIGHTNESS_RESET_MAGIC
    · subst hv
      simp [v1_handle_feature_report, FEATURE_REPORT_BRIGHTNESS_V1,
        STREAMDECK_MAGIC_1, STREAMDECK_MAGIC_2, STREAMDECK_MAGIC_3, List.getD]
    · simp [v1_handle_feature_report, FEATURE_REPORT_BRIGHTNESS_V1,
        STREAMDECK_MAGIC_1, STREAMDECK_MAGIC_2, STREAMDECK_MAGIC_3,
        List.getD, hv]
  · decide

/-! ## RGB565 packing (C9) -/

theorem rgb565_bytes_length (l : List Nat) :
    (rgb565_bytes l).length = 2 * (l.length / 3) := by
  induction l using rgb565_bytes.induct with
  | case1 r g b rest ih =>
    simp [rgb565_bytes, ih]
    omega
  | case2 l h =>
    rcases l with _ | ⟨a, _ | ⟨b, _ | ⟨c, rest⟩⟩⟩
    · simp [rgb565_bytes]
    · simp [rgb565_bytes]
    · simp [rgb565_bytes]
    · exact (h a b c rest rfl).elim

theorem pixel_val_lt (r g b : Nat) (hr : r < 256) (hg : g < 256) (hb : b < 256) :
    Nat.lor (Nat.lor ((r >>> 3) <<< 11) ((g >>> 2) <<< 5)) (b >>> 3) < 65536 := by
  have h1 : (r >>> 3) <<< 11 < 65536 := by
    rw [Nat.shiftRight_eq_div_pow, Nat.shiftLeft_eq]
    have : r / 2 ^ 3 < 32 := by omega
    omega
  have h2 : (g >>> 2) <<< 5 < 65536 := by
    rw [Nat.shiftRight_eq_div_pow, Nat.shiftLeft_eq]
    have : g / 2 ^ 2 < 64 := by omega
    omega
  have h3 : b >>> 3 < 65536 := by
    rw [Nat.shiftRight_eq_div_pow]
    omega
  have e : (65536 : Nat) = 2 ^ 16 := by norm_num
  rw [e] at h1 h2 h3 ⊢
  exact Nat.or_lt_two_pow (Nat.or_lt_two_pow h1 h2) h3

theorem hi_byte_eq (x : Nat) (hx : x < 65536) : (x >>> 8) % 256 = x / 256 := by
  rw [Nat.shiftRight_eq_div_pow]
  have h1 : x / 2 ^ 8 < 256 := by omega
  rw [Nat.mod_eq_of_lt h1]
  norm_num

theorem rgb565_bytes_spec (l : List Nat) (h : ∀ x ∈ l, x < 256) :
    rgb565_bytes l = rgb565_spec_bytes l := by
  induction l using rgb565_bytes.induct with
  | case1 r g b rest ih =>
    have hr : r < 256 := h r (by simp)
    have hg : g < 256 := h g (by simp)
    have hb : b < 256 := h b (by simp)
    have hv := pixel_val_lt r g b hr hg hb
    rw [rgb565_bytes, rgb565_spec_bytes]
    simp only [List.cons.injEq]
    exact ⟨hi_byte_eq _ hv, trivial, ih (fun x hx => h x (by simp [hx]))⟩
  | case2 l hl =>
    rcases l with _ | ⟨a, _ | ⟨b, _ | ⟨c, rest⟩⟩⟩
    · rfl
    · rfl
    · rfl
    · exact (hl a b c rest rfl).elim

/-- **C9 counterexample.** The claim quantifies over every input with length
a multiple of 3, but the output `heapless::Vec<u8, 2048>` drops pushes
beyond 2048 bytes: an input of 1025 pixels (3075 bytes, a multiple of 3)
produces 2048 output bytes, not the 2·1025 = 2050 bytes the claimed
per-pixel emission implies. -/
theorem C9_rgb565_claim_false :
    (List.replicate 3075 (0 : Nat)).length % 3 = 0 ∧
    (rgb888_to_rgb565 (List.replicate 3075 0)).length ≠
      2 * ((List.replicate 3075 (0 : Nat)).length / 3) := by
  constructor
  · rw [List.length_replicate]
  · rw [rgb888_to_rgb565, List.length_take, rgb565_bytes_length,
      List.length_replicate]
    norm_num

/-- **C9 (amended).** For every byte input whose length is a multiple of 3
and which fits the 2048-byte output capacity (at most 1024 pixels, 3072
bytes), `rgb888_to_rgb565` emits per pixel the 16-bit value
`(r>>3)<<11 | (g>>2)<<5 | (b>>3)` high byte first; in particular pure red
`[0xFF, 0x00, 0x00]` yields `[0xF8, 0x00]`. -/
theorem C9_rgb565_packing :
    (∀ (data : List Nat), data.length % 3 = 0 → data.length ≤ 3072 →
        (∀ x ∈ data, x < 256) →
        rgb888_to_rgb565 data = rgb565_spec_bytes data) ∧
    rgb888_to_rgb565 [0xFF, 0x00, 0x00] = [0xF8, 0x00] := by
  constructor
  · intro data h3 hlen hb
    rw [rgb888_to_rgb565, List.take_of_length_le]
    · exact rgb565_bytes_spec data hb
    · rw [rgb565_bytes_length]; omega
  · decide

theorem C9_rgb565_packing_witness :
    ([255, 0, 0] : List Nat).length % 3 = 0 ∧
    ([255, 0, 0] : List Nat).length ≤ 3072 ∧
    (∀ x ∈ ([255, 0, 0] : List Nat), x < 256) ∧
    rgb888_to_rgb565 [255, 0, 0] = rgb565_spec_bytes [255, 0, 0] :=
  ⟨by decide, by decide, by decide,
    C9_rgb565_packing.1 [255, 0, 0] (by decide) (by decide) (by decide)⟩

/-- **C10.** USB identity consistency of the capability model.  For every
device other than `Plus` the model is consistent: `usb_config().pid` equals
`Device::pid()` and `Device::from_pid` round-trips.  The code breaks the
claimed invariant at `Device::Plus`: `usb_config(Plus).pid` is 0x0080 (the
Revised Mini PID) while `Device::pid(Plus)` is 0x0084, so
`from_pid(usb_config(Plus).pid)` even resolves to `RevisedMini`. -/
theorem C10_device_pid_inconsistency :
    (∀ (d : Device), d = Device.Plus ∨
        ((d.usb_config).pid = d.pid ∧ Device.from_pid d.pid = some d)) ∧
    (Device.Plus.usb_config).pid = 0x0080 ∧
    Device.Plus.pid = 0x0084 ∧
    (Device.Plus.usb_config).pid ≠ Device.Plus.pid ∧
    Device.from_pid ((Device.Plus.usb_config).pid) = some Device.RevisedMini := by
  refine ⟨fun d => ?_, by decide, by decide, by decide, by decide⟩
  cases d
  case Plus => exact Or.inl rfl
  all_goals exact Or.inr (by decide)



theorem v1_write_length (cols : Nat) (ltr : Bool) (acc : List Bool)
    (iw : Nat × Bool) : (v1_write cols ltr acc iw).length = acc.length := by
  rw [v1_write]
  split <;> simp

theorem v1_fold_length (cols : Nat) (ltr : Bool) (L : List (Nat × Bool)) :
    ∀ (acc : List Bool), (L.foldl (v1_write cols ltr) acc).length = acc.length := by
  induction L with
  | nil => intro acc; rfl
  | cons a L ih =>
    intro acc
    rw [List.foldl_cons, ih, v1_write_length]

theorem getD_set_ne (l : List Bool) (i j : Nat) (b : Bool) (h : i ≠ j) :
    (l.set i b).getD j false = l.getD j false := by
  rw [List.getD_eq_getElem?_getD, List.getD_eq_getElem?_getD,
    List.getElem?_set_ne h]

theorem getD_set_self (l : List Bool) (i : Nat) (b : Bool) (h : i < l.length) :
    (l.set i b).getD i false = b := by
  rw [List.getD_eq_getElem?_getD, List.getElem?_set_eq_of_lt b h]
  rfl

theorem v1_fold_untouched (cols : Nat) (ltr : Bool) (j : Nat)
    (L : List (Nat × Bool)) (h : ∀ iw ∈ L, v1_mapped_index cols ltr iw.1 ≠ j) :
    ∀ (acc : List Bool),
      (L.foldl (v1_write cols ltr) acc).getD j false = acc.getD j false := by
  induction L with
  | nil => intro acc; rfl
  | cons a L ih =>
    intro acc
    rw [List.foldl_cons, ih (fun iw hiw => h iw (by simp [hiw]))]
    rw [v1_write]
    split
    · exact getD_set_ne acc _ j a.2 (h a (by simp))
    · rfl

theorem v1_fold_hit (cols : Nat) (ltr : Bool) (p : Nat) (w : Bool)
    (L1 L2 : List (Nat × Bool)) (acc : List Bool)
    (hlen : acc.length = 32) (h32 : v1_mapped_index cols ltr p < 32)
    (h2 : ∀ iw ∈ L2, v1_mapped_index cols ltr iw.1 ≠ v1_mapped_index cols ltr p) :
    ((L1 ++ (p, w) :: L2).foldl (v1_write cols ltr) acc).getD
      (v1_mapped_index cols ltr p) false = w := by
  rw [List.foldl_append, List.foldl_cons]
  rw [v1_fold_untouched cols ltr _ L2 h2]
  rw [show v1_write cols ltr (L1.foldl (v1_write cols ltr) acc) (p, w) =
    (L1.foldl (v1_write cols ltr) acc).set (v1_mapped_index cols ltr p) w from by
      rw [v1_write, if_pos h32]]
  exact getD_set_self _ _ w (by rw [v1_fold_length, hlen]; exact h32)



theorem v1_mapped_index_true (cols p : Nat) : v1_mapped_index cols true p = p := rfl

theorem v1_mapped_index_false (cols p : Nat) :
    v1_mapped_index cols false p = p / cols * cols + (cols - 1 - p % cols) := rfl

theorem v1_mapped_index_inj (cols : Nat) (hc : 0 < cols) (a b : Nat)
    (h : v1_mapped_index cols false a = v1_mapped_index cols false b) : a = b := by
  rw [v1_mapped_index_false, v1_mapped_index_false] at h
  have ha1 : a % cols < cols := Nat.mod_lt _ hc
  have hb1 : b % cols < cols := Nat.mod_lt _ hc
  have hda : (a / cols * cols + (cols - 1 - a % cols)) / cols = a / cols := by
    rw [Nat.mul_comm, Nat.mul_add_div hc,
      Nat.div_eq_of_lt (show cols - 1 - a % cols < cols by omega), Nat.add_zero]
  have hdb : (b / cols * cols + (cols - 1 - b % cols)) / cols = b / cols := by
    rw [Nat.mul_comm, Nat.mul_add_div hc,
      Nat.div_eq_of_lt (show cols - 1 - b % cols < cols by omega), Nat.add_zero]
  have hma : (a / cols * cols + (cols - 1 - a % cols)) % cols = cols - 1 - a % cols := by
    rw [Nat.mul_comm, Nat.mul_add_mod, Nat.mod_eq_of_lt (by omega)]
  have hmb : (b / cols * cols + (cols - 1 - b % cols)) % cols = cols - 1 - b % cols := by
    rw [Nat.mul_comm, Nat.mul_add_mod, Nat.mod_eq_of_lt (by omega)]
  have hdiv : a / cols = b / cols := by rw [← hda, ← hdb, h]
  have hmm : cols - 1 - a % cols = cols - 1 - b % cols := by rw [← hma, ← hmb, h]
  have hmod : a % cols = b % cols := by omega
  have e1 : cols * (a / cols) + a % cols = a := Nat.div_add_mod a cols
  have e2 : cols * (b / cols) + b % cols = b := Nat.div_add_mod b cols
  rw [← e1, ← e2, hdiv, hmod]

theorem mem_enum_fst_lt (l : List Bool) (iw : Nat × Bool) (h : iw ∈ l.enum) :
    iw.1 < l.length := by
  rw [List.mem_iff_getElem] at h
  obtain ⟨i, hi, heq⟩ := h
  rw [List.getElem_enum] at heq
  rw [← heq]
  simpa using hi

theorem mem_enum_drop_fst_gt (l : List Bool) (j : Nat) (iw : Nat × Bool)
    (h : iw ∈ l.enum.drop (j + 1)) : j < iw.1 := by
  rw [List.mem_iff_getElem] at h
  obtain ⟨i, hi, heq⟩ := h
  rw [List.getElem_drop] at heq
  rw [List.getElem_enum] at heq
  rw [← heq]
  omega

theorem enum_split (l : List Bool) (j : Nat) (hj : j < l.length) :
    l.enum = l.enum.take j ++ (j, l[j]) :: l.enum.drop (j + 1) := by
  have h1 : j < l.enum.length := by simpa using hj
  conv_lhs => rw [← List.take_append_drop j l.enum]
  rw [List.drop_eq_getElem_cons h1, List.getElem_enum]



theorem v1_map_buttons_length (phys : List Bool) (cols rows : Nat) (ltr : Bool) :
    (v1_map_buttons phys cols rows ltr).mapped_buttons.length = 32 := by
  rw [v1_map_buttons]
  simp only
  rw [v1_fold_length]
  simp

theorem v1_map_true_getD (phys : List Bool) (cols rows j : Nat) (hj : j < 32) :
    (v1_map_buttons phys cols rows true).mapped_buttons.getD j false =
      if j < cols * rows ∧ j < phys.length then phys.getD j false else false := by
  rw [v1_map_buttons]
  simp only
  by_cases hcase : j < cols * rows ∧ j < phys.length
  · rw [if_pos hcase]
    have hjt : j < (phys.take (cols * rows)).length := by
      rw [List.length_take]
      omega
    rw [enum_split (phys.take (cols * rows)) j hjt]
    have hhit := v1_fold_hit cols true j ((phys.take (cols * rows))[j])
      ((phys.take (cols * rows)).enum.take j)
      ((phys.take (cols * rows)).enum.drop (j + 1))
      (List.replicate 32 false) (by simp)
      (by rw [v1_mapped_index_true]; exact hj)
      (fun iw hiw => by
        rw [v1_mapped_index_true, v1_mapped_index_true]
        exact Nat.ne_of_gt (mem_enum_drop_fst_gt _ j iw hiw))
    rw [v1_mapped_index_true] at hhit
    rw [hhit, List.getElem_take, List.getD_eq_getElem _ _ hcase.2]
  · rw [if_neg hcase]
    rw [v1_fold_untouched cols true j _ (fun iw hiw => by
      have := mem_enum_fst_lt _ iw hiw
      rw [List.length_take] at this
      rw [v1_mapped_index_true]
      omega)]
    rw [List.getD_eq_getElem _ _ (by simpa using hj), List.getElem_replicate]

theorem v1_map_false_getD (phys : List Bool) (cols rows row col : Nat)
    (hrow : row < rows) (hcol : col < cols)
    (hp : row * cols + col < phys.length)
    (hm : row * cols + (cols - 1 - col) < 32) :
    (v1_map_buttons phys cols rows false).mapped_buttons.getD
        (row * cols + (cols - 1 - col)) false =
      phys.getD (row * cols + col) false := by
  have hc : 0 < cols := by omega
  have hptot : row * cols + col < cols * rows := by
    have h1 : row * cols + col < (row + 1) * cols := by
      have : (row + 1) * cols = row * cols + cols := by ring
      omega
    have h2 : (row + 1) * cols ≤ rows * cols := Nat.mul_le_mul_right cols (by omega)
    have h3 : rows * cols = cols * rows := Nat.mul_comm rows cols
    omega
  have hdiv : (row * cols + col) / cols = row := by
    rw [Nat.mul_comm row cols, Nat.mul_add_div hc, Nat.div_eq_of_lt hcol,
      Nat.add_zero]
  have hmod : (row * cols + col) % cols = col := by
    rw [Nat.mul_comm row cols, Nat.mul_add_mod, Nat.mod_eq_of_lt hcol]
  have hidx : v1_mapped_index cols false (row * cols + col) =
      row * cols + (cols - 1 - col) := by
    rw [v1_mapped_index_false, hdiv, hmod]
  rw [v1_map_buttons]
  simp only
  have hjt : row * cols + col < (phys.take (cols * rows)).length := by
    rw [List.length_take]
    omega
  rw [enum_split (phys.take (cols * rows)) (row * cols + col) hjt]
  have hhit := v1_fold_hit cols false (row * cols + col)
    ((phys.take (cols * rows))[row * cols + col])
    ((phys.take (cols * rows)).enum.take (row * cols + col))
    ((phys.take (cols * rows)).enum.drop (row * cols + col + 1))
    (List.replicate 32 false) (by simp)
    (by rw [hidx]; exact hm)
    (fun iw hiw => by
      intro heq
      have hgt := mem_enum_drop_fst_gt _ (row * cols + col) iw hiw
      exact absurd (v1_mapped_index_inj cols hc _ _ heq) (by omega))
  rw [hidx] at hhit
  rw [hhit, List.getElem_take, List.getD_eq_getElem _ _ hp]


theorem pix_length (d : List Nat) (j : Nat) : (pix d j).length = 3 := rfl

theorem flatMap_congr_mem {α β : Type} (l : List α) (f g : α → List β)
    (h : ∀ a ∈ l, f a = g a) : l.flatMap f = l.flatMap g := by
  induction l with
  | nil => rfl
  | cons a l ih => simp_all

theorem length_flatMap_const {α : Type} (l : List α) (f : α → List Nat) (n : Nat)
    (h : ∀ a ∈ l, (f a).length = n) : (l.flatMap f).length = n * l.length := by
  induction l with
  | nil => simp
  | cons a l ih =>
    simp_all
    ring

theorem getD_flatMap_range (m : Nat) :
    ∀ (j n : Nat) (f : Nat → List Nat), j < n →
      (∀ i, i < n → (f i).length = m) → ∀ (c : Nat), c < m →
      ((List.range n).flatMap f).getD (j * m + c) 0 = (f j).getD c 0 := by
  intro j
  induction j with
  | zero =>
    intro n f hj hm c hc
    rcases n with _ | n
    · omega
    · rw [List.range_succ_eq_map]
      simp only [List.flatMap_cons]
      rw [Nat.zero_mul, Nat.zero_add]
      exact List.getD_append _ _ _ _ (by rw [hm 0 (by omega)]; exact hc)
  | succ j ih =>
    intro n f hj hm c hc
    rcases n with _ | n
    · omega
    · rw [List.range_succ_eq_map]
      simp only [List.flatMap_cons, List.flatMap_map]
      have e : (j + 1) * m + c = (f 0).length + (j * m + c) := by
        rw [hm 0 (by omega)]
        ring
      rw [e, List.getD_append_right _ _ _ _ (by omega)]
      rw [Nat.add_sub_cancel_left]
      exact ih n (fun i => f (i + 1)) (by omega)
        (fun i hi => hm (i + 1) (by omega)) c hc

theorem pix_grid (W H : Nat) (g : Nat → Nat → Nat) (d : List Nat) (y x : Nat)
    (hy : y < W) (hx : x < H) :
    pix ((List.range W).flatMap fun yy =>
        (List.range H).flatMap fun xx => pix d (g yy xx)) (y * H + x) =
      pix d (g y x) := by
  have hrow : ∀ i, i < W →
      ((List.range H).flatMap fun xx => pix d (g i xx)).length = 3 * H := by
    intro i _
    rw [length_flatMap_const _ _ 3 (fun a _ => pix_length d _)]
    simp
  have key : ∀ cc : Nat, cc < 3 →
      ((List.range W).flatMap fun yy =>
          (List.range H).flatMap fun xx => pix d (g yy xx)).getD
        ((y * H + x) * 3 + cc) 0 = (pix d (g y x)).getD cc 0 := by
    intro cc hcc
    have e : (y * H + x) * 3 + cc = y * (3 * H) + (x * 3 + cc) := by ring
    rw [e]
    rw [getD_flatMap_range (3 * H) y W _ hy hrow (x * 3 + cc) (by omega)]
    rw [getD_flatMap_range 3 x H _ hx (fun i _ => pix_length d _) cc hcc]
  have k0 := key 0 (by omega)
  have k1 := key 1 (by omega)
  have k2 := key 2 (by omega)
  rw [Nat.add_zero] at k0
  rw [show pix ((List.range W).flatMap fun yy =>
      (List.range H).flatMap fun xx => pix d (g yy xx)) (y * H + x) =
    [((List.range W).flatMap fun yy =>
        (List.range H).flatMap fun xx => pix d (g yy xx)).getD ((y * H + x) * 3) 0,
     ((List.range W).flatMap fun yy =>
        (List.range H).flatMap fun xx => pix d (g yy xx)).getD ((y * H + x) * 3 + 1) 0,
     ((List.range W).flatMap fun yy =>
        (List.range H).flatMap fun xx => pix d (g yy xx)).getD ((y * H + x) * 3 + 2) 0]
    from rfl]
  rw [k0, k1, k2]
  rfl



theorem rotate_270_bytes_grid (d : List Nat) (W H : Nat)
    (hlen : d.length = 3 * (W * H)) :
    rotate_270_bytes d W H =
      (List.range W).flatMap fun y =>
        (List.range H).flatMap fun x => pix d (x * W + (W - 1 - y)) := by
  rw [rotate_270_bytes]
  apply flatMap_congr_mem
  intro y hy
  rw [List.mem_range] at hy
  apply flatMap_congr_mem
  intro x hx
  rw [List.mem_range] at hx
  have hxa : x * W ≤ (H - 1) * W := Nat.mul_le_mul_right W (by omega)
  have hb : (H - 1) * W + W = H * W := by
    rcases H with _ | h
    · omega
    · simp only [Nat.add_sub_cancel]
      ring
  have hidx : x * W + (W - 1 - y) < W * H := by
    have : W * H = H * W := Nat.mul_comm W H
    omega
  rw [if_pos (by omega)]
  rfl

theorem rotate_270_bytes_len (d : List Nat) (W H : Nat)
    (hlen : d.length = 3 * (W * H)) :
    (rotate_270_bytes d W H).length = 3 * (W * H) := by
  rw [rotate_270_bytes_grid d W H hlen,
    length_flatMap_const _ _ (3 * H)
      (fun a _ => by
        rw [length_flatMap_const _ _ 3 (fun b _ => pix_length d _)]
        simp)]
  rw [List.length_range]
  ring

theorem rotate_270_len (d : List Nat) (W H : Nat)
    (hlen : d.length = 3 * (W * H)) (hcap : 3 * (W * H) ≤ IMAGE_BUFFER_SIZE) :
    (rotate_270 d W H).length = 3 * (W * H) := by
  rw [rotate_270, List.take_of_length_le (by rw [rotate_270_bytes_len d W H hlen]; exact hcap)]
  exact rotate_270_bytes_len d W H hlen

theorem rotate_270_pix (d : List Nat) (W H : Nat)
    (hlen : d.length = 3 * (W * H)) (hcap : 3 * (W * H) ≤ IMAGE_BUFFER_SIZE)
    (y x : Nat) (hy : y < W) (hx : x < H) :
    pix (rotate_270 d W H) (y * H + x) = pix d (x * W + (W - 1 - y)) := by
  rw [rotate_270, List.take_of_length_le (by rw [rotate_270_bytes_len d W H hlen]; exact hcap)]
  rw [rotate_270_bytes_grid d W H hlen]
  exact pix_grid W H (fun yy xx => xx * W + (W - 1 - yy)) d y x hy hx

theorem pix_ext (a b : List Nat) (N : Nat) (ha : a.length = 3 * N)
    (hb : b.length = 3 * N) (h : ∀ j, j < N → pix a j = pix b j) : a = b := by
  apply List.ext_getElem (by omega)
  intro i h1 h2
  have hp := h (i / 3) (by omega)
  simp only [pix, List.cons.injEq, and_true] at hp
  obtain ⟨e0, e1, e2⟩ := hp
  have hdiv : i / 3 * 3 + i % 3 = i := by omega
  rw [← List.getD_eq_getElem a 0 h1, ← List.getD_eq_getElem b 0 h2]
  have hmod : i % 3 = 0 ∨ i % 3 = 1 ∨ i % 3 = 2 := by omega
  rcases hmod with hc | hc | hc
  · rw [show i = i / 3 * 3 from by omega]
    exact e0
  · rw [show i = i / 3 * 3 + 1 from by omega]
    exact e1
  · rw [show i = i / 3 * 3 + 2 from by omega]
    exact e2

theorem rotate_270_nil (W H : Nat) : rotate_270 [] W H = [] := by
  rw [rotate_270]
  have : rotate_270_bytes [] W H = [] := by
    rw [rotate_270_bytes]
    have : ∀ y ∈ List.range W,
        ((List.range H).flatMap fun x =>
          if (x * W + (W - 1 - y)) * 3 + 2 < ([] : List Nat).length then
            [([] : List Nat).getD ((x * W + (W - 1 - y)) * 3) 0,
             ([] : List Nat).getD ((x * W + (W - 1 - y)) * 3 + 1) 0,
             ([] : List Nat).getD ((x * W + (W - 1 - y)) * 3 + 2) 0]
          else []) = [] := by
      intro y _
      have : ∀ x ∈ List.range H,
          (if (x * W + (W - 1 - y)) * 3 + 2 < ([] : List Nat).length then
            [([] : List Nat).getD ((x * W + (W - 1 - y)) * 3) 0,
             ([] : List Nat).getD ((x * W + (W - 1 - y)) * 3 + 1) 0,
             ([] : List Nat).getD ((x * W + (W - 1 - y)) * 3 + 2) 0]
          else ([] : List Nat)) = [] := by
        intro x _
        rw [if_neg (by simp)]
      rw [flatMap_congr_mem _ _ _ this]
      simp
    rw [flatMap_congr_mem _ _ _ this]
    simp
  rw [this]
  rfl



/-- **C5 counterexample.** The claimed reindexing `new[y][x] = old[W-1-x][y]`
is false on the code: for the 2×2 image with pixels P0..P3 the output pixel
at row 0, column 0 is P1 (input row 0, column 1), not P2 (input row 1,
column 0 = `old[W-1-0][0]`) as the claim states. -/
theorem C5_rotate_270_claim_false :
    ¬ (pix (rotate_270 [10, 11, 12, 20, 21, 22, 30, 31, 32, 40, 41, 42] 2 2)
          (0 * 2 + 0) =
        pix [10, 11, 12, 20, 21, 22, 30, 31, 32, 40, 41, 42]
          ((2 - 1 - 0) * 2 + 0)) := by
  decide

/-- **C5 (amended).** For every W×H input buffer (exactly `3*W*H` bytes)
whose rotated output fits the fixed `IMAGE_BUFFER_SIZE` output capacity,
`rotate_270` addresses the output as W rows by H columns and satisfies
`new[y][x] = old[x][W-1-y]` (the inverse reindexing of the one the claim
stated), every output byte being produced (output length `3*W*H`). -/
theorem C5_rotate_270_reindex (d : List Nat) (W H : Nat)
    (hlen : d.length = 3 * (W * H)) (hcap : 3 * (W * H) ≤ IMAGE_BUFFER_SIZE) :
    (rotate_270 d W H).length = 3 * (W * H) ∧
    ∀ y x, y < W → x < H →
      pix (rotate_270 d W H) (y * H + x) = pix d (x * W + (W - 1 - y)) :=
  ⟨rotate_270_len d W H hlen hcap,
   fun y x hy hx => rotate_270_pix d W H hlen hcap y x hy hx⟩

theorem C5_rotate_270_reindex_witness :
    ([10, 11, 12, 20, 21, 22, 30, 31, 32, 40, 41, 42] : List Nat).length =
      3 * (2 * 2) ∧
    3 * (2 * 2) ≤ IMAGE_BUFFER_SIZE ∧
    ((rotate_270 [10, 11, 12, 20, 21, 22, 30, 31, 32, 40, 41, 42] 2 2).length =
        3 * (2 * 2) ∧
      ∀ y x, y < 2 → x < 2 →
        pix (rotate_270 [10, 11, 12, 20, 21, 22, 30, 31, 32, 40, 41, 42] 2 2)
            (y * 2 + x) =
          pix [10, 11, 12, 20, 21, 22, 30, 31, 32, 40, 41, 42]
            (x * 2 + (2 - 1 - y))) :=
  ⟨by decide, by decide,
    C5_rotate_270_reindex [10, 11, 12, 20, 21, 22, 30, 31, 32, 40, 41, 42] 2 2
      (by decide) (by decide)⟩

/-- **C6 counterexample.** The claim quantifies over every W×H buffer of
exactly `W*H*3` bytes, but `rotate_270` builds its output in a
`heapless::Vec<u8, 1024>`: a 19×19 image (1083 bytes) is truncated to 1024
bytes by the first rotation, so four rotations cannot return the original
buffer. -/
theorem C6_rotate4_claim_false :
    rotate_270 (rotate_270 (rotate_270 (rotate_270
        (List.replicate 1083 (7 : Nat)) 19 19) 19 19) 19 19) 19 19 ≠
      List.replicate 1083 7 := by
  intro h
  have hlen := congrArg List.length h
  rw [List.length_replicate] at hlen
  have hle : (rotate_270 (rotate_270 (rotate_270 (rotate_270
      (List.replicate 1083 (7 : Nat)) 19 19) 19 19) 19 19) 19 19).length ≤ 1024 := by
    rw [rotate_270, List.length_take]
    exact Nat.min_le_left _ _
  omega

/-- **C6 (amended).** For every W×H RGB888 buffer of exactly `W*H*3` bytes
that fits the fixed `IMAGE_BUFFER_SIZE` output capacity, applying
`rotate_270` four times with the swapped dimensions (H,W), (W,H), (H,W) on
the successive calls returns the original buffer. -/
theorem C6_rotate4_identity (W H : Nat) (d : List Nat)
    (hlen : d.length = 3 * (W * H)) (hcap : 3 * (W * H) ≤ IMAGE_BUFFER_SIZE) :
    rotate_270 (rotate_270 (rotate_270 (rotate_270 d W H) H W) W H) H W = d := by
  rcases Nat.eq_zero_or_pos W with hW | hW
  · subst hW
    have hd : d = [] := List.eq_nil_of_length_eq_zero (by simpa using hlen)
    subst hd
    rw [rotate_270_nil, rotate_270_nil, rotate_270_nil, rotate_270_nil]
  rcases Nat.eq_zero_or_pos H with hH | hH
  · subst hH
    have hd : d = [] := List.eq_nil_of_length_eq_zero (by simpa using hlen)
    subst hd
    rw [rotate_270_nil, rotate_270_nil, rotate_270_nil, rotate_270_nil]
  have hcomm : 3 * (H * W) = 3 * (W * H) := by ring
  have hcap2 : 3 * (H * W) ≤ IMAGE_BUFFER_SIZE := by rw [hcomm]; exact hcap
  have hl1 : (rotate_270 d W H).length = 3 * (W * H) :=
    rotate_270_len d W H hlen hcap
  have hl1m : (rotate_270 d W H).length = 3 * (H * W) := by rw [hl1]; ring
  have hl2 : (rotate_270 (rotate_270 d W H) H W).length = 3 * (H * W) :=
    rotate_270_len _ H W hl1m hcap2
  have hl2m : (rotate_270 (rotate_270 d W H) H W).length = 3 * (W * H) := by
    rw [hl2]; ring
  have hl3 : (rotate_270 (rotate_270 (rotate_270 d W H) H W) W H).length
      = 3 * (W * H) :=
    rotate_270_len _ W H hl2m hcap
  have hl3m : (rotate_270 (rotate_270 (rotate_270 d W H) H W) W H).length
      = 3 * (H * W) := by
    rw [hl3]; ring
  have hl4 : (rotate_270 (rotate_270 (rotate_270 (rotate_270 d W H) H W) W H) H W).length
      = 3 * (H * W) :=
    rotate_270_len _ H W hl3m hcap2
  apply pix_ext _ _ (H * W) hl4 (by rw [hlen]; ring)
  intro j hj
  have hy : j / W < H := by
    rw [Nat.div_lt_iff_lt_mul hW]
    exact hj
  have hx : j % W < W := Nat.mod_lt _ hW
  have hj2 : j = j / W * W + j % W := by
    rw [Nat.mul_comm]
    exact (Nat.div_add_mod j W).symm
  obtain ⟨y, x, hy2, hx2, rfl⟩ : ∃ y x, y < H ∧ x < W ∧ j = y * W + x :=
    ⟨j / W, j % W, hy, hx, hj2⟩
  clear hy hx hj2 hj
  calc pix (rotate_270 (rotate_270 (rotate_270 (rotate_270 d W H) H W) W H) H W)
        (y * W + x)
      = pix (rotate_270 (rotate_270 (rotate_270 d W H) H W) W H)
          (x * H + (H - 1 - y)) :=
        rotate_270_pix _ H W hl3m hcap2 y x hy2 hx2
    _ = pix (rotate_270 (rotate_270 d W H) H W)
          ((H - 1 - y) * W + (W - 1 - x)) :=
        rotate_270_pix _ W H hl2m hcap x (H - 1 - y) hx2 (by omega)
    _ = pix (rotate_270 d W H)
          ((W - 1 - x) * H + (H - 1 - (H - 1 - y))) :=
        rotate_270_pix _ H W hl1m hcap2 (H - 1 - y) (W - 1 - x)
          (by omega) (by omega)
    _ = pix (rotate_270 d W H) ((W - 1 - x) * H + y) := by
        rw [show H - 1 - (H - 1 - y) = y from by omega]
    _ = pix d (y * W + (W - 1 - (W - 1 - x))) :=
        rotate_270_pix d W H hlen hcap (W - 1 - x) y (by omega) hy2
    _ = pix d (y * W + x) := by
        rw [show W - 1 - (W - 1 - x) = x from by omega]

theorem C6_rotate4_identity_witness :
    ([1, 2, 3, 4, 5, 6] : List Nat).length = 3 * (2 * 1) ∧
    3 * (2 * 1) ≤ IMAGE_BUFFER_SIZE ∧
    rotate_270 (rotate_270 (rotate_270 (rotate_270
        ([1, 2, 3, 4, 5, 6] : List Nat) 2 1) 1 2) 2 1) 1 2 = [1, 2, 3, 4, 5, 6] :=
  ⟨by decide, by decide,
    C6_rotate4_identity 2 1 [1, 2, 3, 4, 5, 6] (by decide) (by decide)⟩

/-- **C8.** Button mapping of the V1 handler.  First conjunct: the mapped
array always has exactly 32 slots (writes to mapped indices ≥ 32 are
dropped by the `mapped_idx < 32` guard).  Second conjunct
(`left_to_right = true`): every slot `j < 32` holds exactly the physical
state at `j` when `j` is within the first `cols*rows` entries (identity
mapping), and `false` otherwise - so the output depends on no physical
index ≥ 32.  Third conjunct (`left_to_right = false`): each row is
reversed, mapping the physical press at `(row, col)` to logical index
`row*cols + (cols-1-col)`.  Fourth conjunct: for the 3×2 layout with
`left_to_right = false`, a press at physical index 0 appears at logical
index 2. -/
theorem C8_button_mapping :
    (∀ (phys : List Bool) (cols rows : Nat) (ltr : Bool),
        (v1_map_buttons phys cols rows ltr).mapped_buttons.length = 32) ∧
    (∀ (phys : List Bool) (cols rows j : Nat), j < 32 →
        (v1_map_buttons phys cols rows true).mapped_buttons.getD j false =
          if j < cols * rows ∧ j < phys.length then phys.getD j false
          else false) ∧
    (∀ (phys : List Bool) (cols rows row col : Nat), row < rows → col < cols →
        row * cols + col < phys.length → row * cols + (cols - 1 - col) < 32 →
        (v1_map_buttons phys cols rows false).mapped_buttons.getD
            (row * cols + (cols - 1 - col)) false =
          phys.getD (row * cols + col) false) ∧
    (v1_map_buttons [true, false, false, false, false, false] 3 2
        false).mapped_buttons.getD 2 false = true :=
  ⟨v1_map_buttons_length, v1_map_true_getD, v1_map_false_getD, by decide⟩

theorem C8_button_mapping_witness :
    ((2 : Nat) < 32 ∧
      (v1_map_buttons [true, true, false, true, false, false] 3 2
          true).mapped_buttons.getD 2 false =
        if 2 < 3 * 2 ∧ 2 < ([true, true, false, true, false, false] : List Bool).length
        then ([true, true, false, true, false, false] : List Bool).getD 2 false
        else false) ∧
    ((0 : Nat) < 2 ∧ (1 : Nat) < 3 ∧
      0 * 3 + 1 < ([true, true, false, true, false, false] : List Bool).length ∧
      0 * 3 + (3 - 1 - 1) < 32 ∧
      (v1_map_buttons [true, true, false, true, false, false] 3 2
          false).mapped_buttons.getD (0 * 3 + (3 - 1 - 1)) false =
        ([true, true, false, true, false, false] : List Bool).getD (0 * 3 + 1) false) :=
  ⟨⟨by decide,
    C8_button_mapping.2.1 [true, true, false, true, false, false] 3 2 2 (by decide)⟩,
   ⟨by decide, by decide, by decide, by decide,
    C8_button_mapping.2.2.1 [true, true, false, true, false, false] 3 2 0 1
      (by decide) (by decide) (by decide) (by decide)⟩⟩

end ProdDeck
